import Mathlib

/-!
Shallow embedding of the query execution and pagination engine of
`datasette/app.py` (read-only SQLite browsing server).

Machine rows are modelled as Lean lists; SQL `LIMIT n` becomes `List.take n`;
Python dicts that are only iterated/looked-up become association lists;
Python strings become `List Char` so that splitting and scanning are plain
structural recursion; Python `None`/presence of a keyword argument becomes
`Option`.
-/

set_option autoImplicit false

namespace Datasette

/-! ### Time-boxed executor: `BaseView.execute` (app.py lines 125-166) -/

/--
Row-fetch and truncation logic of `BaseView.execute` (app.py lines 147-153):

    if self.max_returned_rows and truncate:
        rows = cursor.fetchmany(self.max_returned_rows + 1)
        truncated = len(rows) > self.max_returned_rows
        rows = rows[:self.max_returned_rows]
    else:
        rows = cursor.fetchall()
        truncated = False

`allRows` is the full result sequence of the executed statement, so
`cursor.fetchmany(n)` is `allRows.take n` and `cursor.fetchall()` is
`allRows`.  Python truthiness of the integer `max_returned_rows` is
`maxReturnedRows ≠ 0`.
-/
def execute_fetch {α : Type} (allRows : List α) (maxReturnedRows : Nat)
    (truncate : Bool) : List α × Bool :=
  if maxReturnedRows ≠ 0 ∧ truncate = true then
    let rows := allRows.take (maxReturnedRows + 1)
    let truncated := decide (rows.length > maxReturnedRows)
    (rows.take maxReturnedRows, truncated)
  else
    (allRows, false)

/--
Effective SQL time limit of `BaseView.execute` (app.py lines 139-141):

    time_limit_ms = self.ds.sql_time_limit_ms
    if custom_time_limit and custom_time_limit < self.ds.sql_time_limit_ms:
        time_limit_ms = custom_time_limit

`customTimeLimit = none` is Python `None`; Python truthiness of the integer
override is `c ≠ 0`.
-/
def effective_time_limit (sqlTimeLimitMs : Int) (customTimeLimit : Option Int) :
    Int :=
  match customTimeLimit with
  | some c => if c ≠ 0 ∧ c < sqlTimeLimitMs then c else sqlTimeLimitMs
  | none => sqlTimeLimitMs

/-! ### Theorems for claims C2 and C3 -/

/--
C2: with truncation enabled (`truncate=True` and a nonzero
`max_returned_rows`), `execute` fetches at most `max_returned_rows + 1` rows
(the returned rows are the first `max_returned_rows` of that bounded fetch,
the probe row being dropped), the `truncated` flag is true iff the total
number of matching rows exceeds `max_returned_rows`, and the returned row
sequence always has length at most `max_returned_rows`.
-/
theorem c2_execute_truncation {α : Type} (allRows : List α)
    (maxReturnedRows : Nat) (hm : 0 < maxReturnedRows) :
    (execute_fetch allRows maxReturnedRows true).1
        = (allRows.take (maxReturnedRows + 1)).take maxReturnedRows
      ∧ (allRows.take (maxReturnedRows + 1)).length ≤ maxReturnedRows + 1
      ∧ ((execute_fetch allRows maxReturnedRows true).2 = true
          ↔ maxReturnedRows < allRows.length)
      ∧ (execute_fetch allRows maxReturnedRows true).1.length
          ≤ maxReturnedRows := by
  have hne : maxReturnedRows ≠ 0 := Nat.pos_iff_ne_zero.mp hm
  refine ⟨?_, ?_, ?_, ?_⟩
  · simp [execute_fetch, hne]
  · simp
  · simp only [execute_fetch, hne, ne_eq, not_false_iff, and_self, if_true,
      decide_eq_true_eq, List.length_take, true_and]
    omega
  · simp only [execute_fetch, hne, ne_eq, not_false_iff, and_self, if_true]
    simp

/--
Witness for C2 at a concrete input: 4 matching rows, limit 2.
-/
theorem c2_execute_truncation_witness :
    (execute_fetch [10, 20, 30, 40] 2 true).1 = ([10, 20, 30].take 2)
      ∧ ((execute_fetch [10, 20, 30, 40] 2 true).2 = true ↔ 2 < 4)
      ∧ (execute_fetch [10, 20, 30, 40] 2 true).1.length ≤ 2 := by
  have h := c2_execute_truncation [10, 20, 30, 40] 2 (by decide)
  exact ⟨h.1, h.2.2.1, h.2.2.2⟩

/--
C3 counterexample: a per-request override of `0` is falsy in Python, so the
effective limit stays at the global default `1000`, not
`min 0 1000 = 0` as the claim requires of every override.
-/
theorem c3_counterexample :
    effective_time_limit 1000 (some 0) ≠ min (0 : Int) 1000 := by
  decide

/--
C3 amended: for every nonzero per-request override the effective deadline
equals `min(override, global default)`, a zero override is ignored (the
global default applies), and no override can ever lengthen the limit beyond
the global default.
-/
theorem c3_time_limit_min (g c : Int) :
    (c ≠ 0 → effective_time_limit g (some c) = min c g)
      ∧ (effective_time_limit g (some 0) = g)
      ∧ effective_time_limit g (some c) ≤ g := by
  refine ⟨?_, ?_, ?_⟩
  · intro hc
    by_cases hlt : c < g
    · simp [effective_time_limit, hc, hlt, min_eq_left (le_of_lt hlt)]
    · have := le_of_not_lt hlt
      simp [effective_time_limit, hlt, min_eq_right this]
  · simp [effective_time_limit]
  · show (if c ≠ 0 ∧ c < g then c else g) ≤ g
    by_cases hc : c ≠ 0 ∧ c < g
    · rw [if_pos hc]
      exact le_of_lt hc.2
    · rw [if_neg hc]

/--
Witness for C3's amended theorem at override 500 against global 1000.
-/
theorem c3_time_limit_min_witness :
    effective_time_limit 1000 (some 500) = min (500 : Int) 1000
      ∧ effective_time_limit 1000 (some 500) ≤ 1000 :=
  ⟨(c3_time_limit_min 1000 500).1 (by decide), (c3_time_limit_min 1000 500).2.2⟩

/-! ### Database-name resolution: `BaseView.resolve_db_name` (app.py 80-113) -/

/--
Python `s.rsplit(sep, 1)`: split a string at the LAST occurrence of `sep`,
returning `none` when `sep` does not occur.  The recursion finds the first
separator whose tail holds no further separator, which is the last one.
-/
def rsplitOn (sep : Char) : List Char → Option (List Char × List Char)
  | [] => none
  | c :: rest =>
    match rsplitOn sep rest with
    | some (l, r) => some (c :: l, r)
    | none => if c = sep then some ([], rest) else none

/--
Remaining path segments of the request, as passed to `resolve_db_name` via
`**kwargs` (app.py 104-111): optional table name, row primary-key path, and
`.json`/`.db` format suffixes.
-/
structure ResolveKwargs where
  table : Option (List Char)
  pk_path : Option (List Char)
  as_json : Option (List Char)
  as_db : Option (List Char)

/--
Name/hash split of `resolve_db_name` (app.py 82-93):

    hash = None
    name = None
    if '-' in db_name:
        name, hash = db_name.rsplit('-', 1)
        if name not in databases:
            name = db_name
            hash = None
    else:
        name = db_name

The registry is an association list from database name to full content hash.
-/
def splitNameHash (databases : List (List Char × List Char))
    (dbName : List Char) : List Char × Option (List Char) :=
  if '-' ∈ dbName then
    match rsplitOn '-' dbName with
    | some (n, h) =>
      if (databases.lookup n).isSome then (n, some h) else (dbName, none)
    | none => (dbName, none)
  else (dbName, none)

/--
Redirect target built by `resolve_db_name` on a hash mismatch (app.py
100-112): `/name-expected` followed by the optional table, pk path and
format-suffix segments of the current request.
-/
def should_redirect_target (name expected : List Char) (kw : ResolveKwargs) :
    List Char :=
  ('/' :: name ++ '-' :: expected)
    ++ (match kw.table with | some t => '/' :: t | none => [])
    ++ (match kw.pk_path with | some p => '/' :: p | none => [])
    ++ (match kw.as_json with | some j => j | none => [])
    ++ (match kw.as_db with | some d => d | none => [])

/--
`BaseView.resolve_db_name` (app.py 80-113).  Returns
`(name, expected_hash_7, redirect_target?)`, or an error for the `NotFound`
exception raised when the resolved name is not registered.  `expected` is the
first 7 characters of the registered content hash; any supplied hash that
differs from it (including an absent hash, Python `None`) triggers the
redirect branch.
-/
def resolve_db_name (databases : List (List Char × List Char))
    (dbName : List Char) (kw : ResolveKwargs) :
    Except (List Char) (List Char × List Char × Option (List Char)) :=
  let nh := splitNameHash databases dbName
  match databases.lookup nh.1 with
  | none => .error ("Database not found: ".toList ++ nh.1)
  | some fullHash =>
    let expected := fullHash.take 7
    if nh.2 ≠ some expected then
      .ok (nh.1, expected, some (should_redirect_target nh.1 expected kw))
    else
      .ok (nh.1, expected, none)

/-! ### Theorems for claims C4 and C9 -/

/--
C4: when the resolved name part is registered but the supplied 7-character
hash is stale or absent, `resolve_db_name` never raises `NotFound`: it
returns the redirect target `/name-currentHash7` followed by the request's
remaining path segments; and an error is raised exactly when the resolved
name is unknown to the registry.
-/
theorem c4_stale_hash_redirect (databases : List (List Char × List Char))
    (dbName : List Char) (kw : ResolveKwargs) :
    (∀ fullHash,
        databases.lookup (splitNameHash databases dbName).1 = some fullHash →
        (splitNameHash databases dbName).2 ≠ some (fullHash.take 7) →
        resolve_db_name databases dbName kw
          = .ok ((splitNameHash databases dbName).1, fullHash.take 7,
              some (('/' :: (splitNameHash databases dbName).1
                      ++ '-' :: fullHash.take 7)
                ++ (match kw.table with | some t => '/' :: t | none => [])
                ++ (match kw.pk_path with | some p => '/' :: p | none => [])
                ++ (match kw.as_json with | some j => j | none => [])
                ++ (match kw.as_db with | some d => d | none => []))))
      ∧ ((∃ e, resolve_db_name databases dbName kw = Except.error e)
          ↔ databases.lookup (splitNameHash databases dbName).1 = none) := by
  constructor
  · intro fullHash hreg hstale
    simp only [resolve_db_name, hreg]
    rw [if_pos hstale]
    rfl
  · constructor
    · rintro ⟨e, he⟩
      cases h : databases.lookup (splitNameHash databases dbName).1 with
      | none => rfl
      | some fullHash =>
        simp only [resolve_db_name, h] at he
        by_cases hm : (splitNameHash databases dbName).2
            ≠ some (fullHash.take 7)
        · rw [if_pos hm] at he
          exact absurd he (by simp)
        · rw [if_neg hm] at he
          exact absurd he (by simp)
    · intro h
      refine ⟨"Database not found: ".toList
          ++ (splitNameHash databases dbName).1, ?_⟩
      simp only [resolve_db_name, h]

/--
Witness for C4: registry `{"db" ↦ "abcdefgh"}`, request path segment `db`
(hash absent) with a table segment, redirecting to `/db-abcdefg/t`.
-/
theorem c4_stale_hash_redirect_witness :
    resolve_db_name [("db".toList, "abcdefgh".toList)] "db".toList
        ⟨some "t".toList, none, none, none⟩
      = .ok ("db".toList, "abcdefg".toList, some "/db-abcdefg/t".toList) := by
  have h := (c4_stale_hash_redirect [("db".toList, "abcdefgh".toList)]
      "db".toList ⟨some "t".toList, none, none, none⟩).1
      "abcdefgh".toList (by decide) (by decide)
  exact h.trans (by rfl)

/--
Helper: a successful `rsplitOn` means the separator occurs in the list.
-/
theorem rsplitOn_mem {sep : Char} :
    ∀ {l : List Char} {a b : List Char},
      rsplitOn sep l = some (a, b) → sep ∈ l := by
  intro l
  induction l with
  | nil => intro a b h; simp [rsplitOn] at h
  | cons c rest ih =>
    intro a b h
    simp only [rsplitOn] at h
    cases hr : rsplitOn sep rest with
    | some p =>
      exact List.mem_cons_of_mem _ (ih hr)
    | none =>
      rw [hr] at h
      by_cases hc : c = sep
      · exact hc ▸ List.mem_cons_self _ _
      · rw [if_neg hc] at h
        exact absurd h (by simp)

/--
C9: a registered database whose own name contains a hyphen is still
resolved: when the prefix before the last hyphen is not itself a registered
name, `resolve_db_name` falls back to the whole segment as the name with no
hash supplied, and resolution succeeds (no `NotFound`).
-/
theorem c9_hyphenated_db_name (databases : List (List Char × List Char))
    (dbName : List Char) (kw : ResolveKwargs) (p s fullHash : List Char)
    (hsplit : rsplitOn '-' dbName = some (p, s))
    (hpn : databases.lookup p = none)
    (hreg : databases.lookup dbName = some fullHash) :
    splitNameHash databases dbName = (dbName, none)
      ∧ ∃ r, resolve_db_name databases dbName kw
          = .ok (dbName, fullHash.take 7, some r) := by
  have hmem : '-' ∈ dbName := rsplitOn_mem hsplit
  have hsnh : splitNameHash databases dbName = (dbName, none) := by
    simp only [splitNameHash, hmem, if_true, hsplit, hpn]
    simp
  refine ⟨hsnh, should_redirect_target dbName (fullHash.take 7) kw, ?_⟩
  simp only [resolve_db_name, hsnh, hreg]
  rw [if_pos (by simp)]

/--
Witness for C9: registry `{"a-b" ↦ "h1h2h3h4"}`; resolving `a-b` (prefix
`a` unregistered) succeeds with name `a-b`.
-/
theorem c9_hyphenated_db_name_witness :
    splitNameHash [("a-b".toList, "h1h2h3h4".toList)] "a-b".toList
        = ("a-b".toList, none)
      ∧ ∃ r, resolve_db_name [("a-b".toList, "h1h2h3h4".toList)] "a-b".toList
          ⟨none, none, none, none⟩
          = .ok ("a-b".toList, "h1h2h3h".toList, some r) :=
  c9_hyphenated_db_name [("a-b".toList, "h1h2h3h4".toList)] "a-b".toList
    ⟨none, none, none, none⟩ "a".toList "b".toList "h1h2h3h4".toList
    (by decide) (by decide) (by decide)

/-! ### Special query parameters: `TableView.data` (app.py 406-415) -/

/--
Python `key.startswith('_')` on a string modelled as a character list.
-/
def startsWithUnderscore : List Char → Bool
  | '_' :: _ => true
  | _ => false

/--
Python `'__' in key`: the key holds two consecutive underscores.
-/
def containsDoubleUnderscore : List Char → Bool
  | '_' :: '_' :: _ => true
  | _ :: rest => containsDoubleUnderscore rest
  | [] => false

/--
Key classification of app.py 412: `key.startswith('_') and '__' not in key`.
-/
def isSpecialArg (k : List Char) : Bool :=
  startsWithUnderscore k && !containsDoubleUnderscore k

/--
Partition of `request.args` into `special_args` and `other_args`
(app.py 409-415); `other_args` is what is later handed to
`build_where_clauses` as column filters.  The source stores `value[0]` of
the multi-valued query argument; the claim is about key routing, so the
value type stays abstract.
-/
def splitSpecialArgs {V : Type} : List (List Char × V) →
    List (List Char × V) × List (List Char × V)
  | [] => ([], [])
  | p :: rest =>
    let so := splitSpecialArgs rest
    if isSpecialArg p.1 then (p :: so.1, so.2) else (so.1, p :: so.2)

/--
Helper: membership in the `special_args` component of the partition.
-/
theorem mem_fst_splitSpecialArgs {V : Type} (p : List Char × V) :
    ∀ args : List (List Char × V),
      p ∈ (splitSpecialArgs args).1 ↔ p ∈ args ∧ isSpecialArg p.1 = true := by
  intro args
  induction args with
  | nil => simp [splitSpecialArgs]
  | cons a rest ih =>
    by_cases h : isSpecialArg a.1
    · simp only [splitSpecialArgs]
      rw [if_pos h]
      simp only [List.mem_cons]
      constructor
      · rintro (rfl | hp)
        · exact ⟨Or.inl rfl, h⟩
        · exact ⟨Or.inr (ih.mp hp).1, (ih.mp hp).2⟩
      · rintro ⟨rfl | hm, hs⟩
        · exact Or.inl rfl
        · exact Or.inr (ih.mpr ⟨hm, hs⟩)
    · simp only [splitSpecialArgs]
      rw [if_neg h]
      simp only [List.mem_cons]
      constructor
      · intro hp
        exact ⟨Or.inr (ih.mp hp).1, (ih.mp hp).2⟩
      · rintro ⟨rfl | hm, hs⟩
        · exact absurd hs h
        · exact ih.mpr ⟨hm, hs⟩

/--
Helper: membership in the `other_args` component of the partition.
-/
theorem mem_snd_splitSpecialArgs {V : Type} (p : List Char × V) :
    ∀ args : List (List Char × V),
      p ∈ (splitSpecialArgs args).2 ↔ p ∈ args ∧ isSpecialArg p.1 = false := by
  intro args
  induction args with
  | nil => simp [splitSpecialArgs]
  | cons a rest ih =>
    by_cases h : isSpecialArg a.1
    · simp only [splitSpecialArgs]
      rw [if_pos h]
      simp only [List.mem_cons]
      constructor
      · intro hp
        exact ⟨Or.inr (ih.mp hp).1, (ih.mp hp).2⟩
      · rintro ⟨rfl | hm, hs⟩
        · rw [h] at hs
          exact absurd hs (by simp)
        · exact ih.mpr ⟨hm, hs⟩
    · simp only [splitSpecialArgs]
      rw [if_neg h]
      simp only [List.mem_cons]
      constructor
      · rintro (rfl | hp)
        · exact ⟨Or.inl rfl, Bool.eq_false_iff.mpr h⟩
        · exact ⟨Or.inr (ih.mp hp).1, (ih.mp hp).2⟩
      · rintro ⟨rfl | hm, hs⟩
        · exact Or.inl rfl
        · exact Or.inr (ih.mpr ⟨hm, hs⟩)

/--
C6: in the table-browse parameter partition, every key that begins with an
underscore and contains no double underscore is routed to `special_args`
and never reaches the filter builder, while any key containing a double
underscore — even with a leading underscore — is routed to `other_args`
(column filters).
-/
theorem c6_special_args {V : Type} (args : List (List Char × V))
    (k : List Char) (v : V) (hmem : (k, v) ∈ args) :
    (startsWithUnderscore k = true ∧ containsDoubleUnderscore k = false →
        (k, v) ∈ (splitSpecialArgs args).1
          ∧ (k, v) ∉ (splitSpecialArgs args).2)
      ∧ (containsDoubleUnderscore k = true →
        (k, v) ∈ (splitSpecialArgs args).2
          ∧ (k, v) ∉ (splitSpecialArgs args).1) := by
  constructor
  · rintro ⟨hs, hd⟩
    have hspec : isSpecialArg k = true := by
      simp [isSpecialArg, hs, hd]
    constructor
    · exact (mem_fst_splitSpecialArgs (k, v) args).mpr ⟨hmem, hspec⟩
    · intro hin
      have := ((mem_snd_splitSpecialArgs (k, v) args).mp hin).2
      rw [hspec] at this
      exact absurd this (by simp)
  · intro hd
    have hspec : isSpecialArg k = false := by
      simp [isSpecialArg, hd]
    constructor
    · exact (mem_snd_splitSpecialArgs (k, v) args).mpr ⟨hmem, hspec⟩
    · intro hin
      have := ((mem_fst_splitSpecialArgs (k, v) args).mp hin).2
      rw [hspec] at this
      exact absurd this (by simp)

/--
Witness for C6: `_next` is special, `_col__exact` is a column filter.
-/
theorem c6_special_args_witness :
    (("_next".toList, 0) ∈
        (splitSpecialArgs
          [("_next".toList, 0), ("_col__exact".toList, 2)]).1
      ∧ ("_next".toList, 0) ∉
        (splitSpecialArgs
          [("_next".toList, 0), ("_col__exact".toList, 2)]).2)
      ∧ (("_col__exact".toList, 2) ∈
        (splitSpecialArgs
          [("_next".toList, 0), ("_col__exact".toList, 2)]).2
      ∧ ("_col__exact".toList, 2) ∉
        (splitSpecialArgs
          [("_next".toList, 0), ("_col__exact".toList, 2)]).1) :=
  ⟨(c6_special_args [("_next".toList, 0), ("_col__exact".toList, 2)]
      "_next".toList 0 (by decide)).1 (by decide),
   (c6_special_args [("_next".toList, 0), ("_col__exact".toList, 2)]
      "_col__exact".toList 2 (by decide)).2 (by decide)⟩

/-! ### Named-parameter discovery: `DatabaseView` (app.py 299, 326-347) -/

/--
Character class of the compiled pattern `:([a-zA-Z0-0_]+)` (app.py 299),
embedded exactly as written: the ranges `a-z` and `A-Z`, the one-character
range `0-0` (the digit `0` only), and `_`.
-/
def isNamedParamChar (c : Char) : Bool :=
  (decide ('a' ≤ c) && decide (c ≤ 'z'))
    || (decide ('A' ≤ c) && decide (c ≤ 'Z'))
    || c == '0' || c == '_'

/--
Left-to-right scan of `re.findall(':([a-zA-Z0-0_]+)', sql)` as a character
state machine.  The first argument is `none` outside a candidate match and
`some acc` right after a `:`, with `acc` holding the (reversed) class
characters read so far; a maximal nonempty run is emitted when it ends, and
scanning resumes at the character that ended it (which may itself begin the
next `:`-match), matching the regex engine's non-overlapping scan.
-/
def findNamedParametersAux : Option (List Char) → List Char → List (List Char)
  | some acc, [] => if acc.isEmpty then [] else [acc.reverse]
  | none, [] => []
  | some acc, c :: rest =>
    if isNamedParamChar c then
      findNamedParametersAux (some (c :: acc)) rest
    else if acc.isEmpty then
      (if c = ':' then findNamedParametersAux (some []) rest
       else findNamedParametersAux none rest)
    else
      acc.reverse ::
        (if c = ':' then findNamedParametersAux (some []) rest
         else findNamedParametersAux none rest)
  | none, c :: rest =>
    if c = ':' then findNamedParametersAux (some []) rest
    else findNamedParametersAux none rest

/--
Named-parameter extraction of `DatabaseView.custom_sql` (app.py 332):
`named_parameters = self.re_named_parameter.findall(sql)`.
-/
def findNamedParameters (sql : List Char) : List (List Char) :=
  findNamedParametersAux none sql

/--
Parameter completion of `DatabaseView.custom_sql` (app.py 338-341):

    for named_parameter in named_parameters:
        if named_parameter not in params:
            params[named_parameter] = ''

Dict insertion order is modelled by appending the new binding.
-/
def custom_sql_params (sql : List Char)
    (params : List (List Char × List Char)) :
    List (List Char × List Char) :=
  (findNamedParameters sql).foldl
    (fun ps np => if (ps.lookup np).isSome then ps else ps ++ [(np, [])])
    params

/--
Echoed mapping of `DatabaseView.custom_sql` (app.py 333-336):

    named_parameter_values = {
        named_parameter: params.get(named_parameter) or ''
        for named_parameter in named_parameters
    }

`params.get(np) or ''` yields `''` both when the key is absent and when its
value is the (falsy) empty string, which coincides with `getD []`.
-/
def named_parameter_values (sql : List Char)
    (params : List (List Char × List Char)) :
    List (List Char × List Char) :=
  (findNamedParameters sql).map (fun np => (np, (params.lookup np).getD []))

/-! ### Theorems for claims C7 and C10 -/

/--
C7 (code bug): the scan built from the source's character class
`[a-zA-Z0-0_]` (which omits the digits 1-9) discovers `name_0` in full but
truncates `:p1` to `p`, so the bound parameter set is NOT the set of
`:identifier` tokens for identifiers made of letters, digits and
underscores.
-/
theorem c7_named_parameter_scan :
    findNamedParameters "select :name_0 from t where a = :p1".toList
        = ["name_0".toList, "p".toList]
      ∧ "p1".toList ∉ findNamedParameters "select :p1".toList
      ∧ findNamedParameters "select :p1".toList = ["p".toList] := by
  refine ⟨by decide, by decide, by decide⟩

/--
C10 (code bug): on `select :p1` with no caller parameters, the completed
binding map contains only `p ↦ ''` — the name `p1` required by the
statement is absent, so execution hits a missing binding; for a placeholder
the scan does discover (`:foo`), the missing name IS bound to the empty
string, as the claim describes.
-/
theorem c10_missing_binding :
    custom_sql_params "select :p1".toList [] = [("p".toList, [])]
      ∧ (custom_sql_params "select :p1".toList []).lookup "p1".toList = none
      ∧ named_parameter_values "select :p1".toList [] = [("p".toList, [])]
      ∧ custom_sql_params "select :foo".toList [] = [("foo".toList, [])]
      ∧ named_parameter_values "select :foo".toList []
          = [("foo".toList, [])] := by
  refine ⟨by decide, by decide, by decide, by decide, by decide⟩

/-! ### Database registry: `Datasette.inspect` (app.py 616-654) -/

/--
Final path component, as in `pathlib.Path(filename).name`: everything after
the last `/`, or the whole path when it holds no `/`.
-/
def lastComponentOf (path : List Char) : List Char :=
  match rsplitOn '/' path with
  | some (_, aft) => aft
  | none => path

/--
Stem of a final path component, as in `pathlib`: the component minus its
last dot-suffix, where a suffix exists only when the last `.` is neither
the first nor the last character (`.hidden` and `name.` keep their dot).
-/
def stemOfName (name : List Char) : List Char :=
  match rsplitOn '.' name with
  | some (before, aft) => if before ≠ [] ∧ aft ≠ [] then before else name
  | none => name

/--
Python `Path(filename).stem` (app.py 620-621): stem of the final path
component.
-/
def stem (path : List Char) : List Char :=
  stemOfName (lastComponentOf path)

/--
Registry construction loop of `Datasette.inspect` (app.py 618-653): walk
the configured files, derive each name from the file stem, and either raise
on a name already present or record the entry.  The per-file info (hash,
tables) is irrelevant to the claim and is represented by the file path
itself; dict insertion order is modelled by appending.
-/
def inspectGo : List (List Char) → List (List Char × List Char) →
    Except (List Char) (List (List Char × List Char))
  | [], acc => .ok acc
  | f :: rest, acc =>
    if (acc.lookup (stem f)).isSome then
      .error ("Multiple files with same stem ".toList ++ stem f)
    else
      inspectGo rest (acc ++ [(stem f, f)])

/--
`Datasette.inspect` on a fresh instance (`self._inspect` empty): one
registry entry per configured file, keyed by stem, or the duplicate-stem
exception.
-/
def inspect_db_names (files : List (List Char)) :
    Except (List Char) (List (List Char × List Char)) :=
  inspectGo files []

/--
Helper: an association-list lookup misses exactly when the key is absent
from the key column.
-/
theorem lookup_eq_none_iff_keys {α β : Type} [BEq α] [LawfulBEq α]
    (l : List (α × β)) (k : α) :
    l.lookup k = none ↔ k ∉ l.map Prod.fst := by
  induction l with
  | nil => simp [List.lookup]
  | cons p rest ih =>
    obtain ⟨a, b⟩ := p
    by_cases h : k = a
    · subst h
      simp [List.lookup]
    · have hbeq : (k == a) = false := by
        simp [h]
      simp [List.lookup, hbeq, ih, h]

/--
Helper: on a prefix of files whose stems (together with the accumulator's
keys) are all distinct, the registry loop returns every entry.
-/
theorem inspectGo_ok (files : List (List Char)) :
    ∀ acc : List (List Char × List Char),
      ((acc.map Prod.fst) ++ files.map stem).Nodup →
      inspectGo files acc = .ok (acc ++ files.map (fun f => (stem f, f))) := by
  induction files with
  | nil =>
    intro acc _
    simp [inspectGo]
  | cons f rest ih =>
    intro acc h
    have hre : (acc.map Prod.fst) ++ (f :: rest).map stem
        = ((acc ++ [(stem f, f)]).map Prod.fst) ++ rest.map stem := by
      simp
    have hnotin : stem f ∉ acc.map Prod.fst := by
      rw [List.nodup_append] at h
      intro hmem
      exact h.2.2 hmem (by simp)
    have hlookup : acc.lookup (stem f) = none :=
      (lookup_eq_none_iff_keys acc (stem f)).mpr hnotin
    have hrec := ih (acc ++ [(stem f, f)]) (by rw [← hre]; exact h)
    simp only [inspectGo, hlookup, Option.isSome_none, Bool.false_eq_true,
      if_false]
    rw [hrec]
    simp

/--
Helper: when the accumulator keys and remaining stems hold a duplicate (the
accumulator itself still being clean), the registry loop raises the
duplicate-stem error, and the error names a stem that occurs at least twice.
-/
theorem inspectGo_dup (files : List (List Char)) :
    ∀ acc : List (List Char × List Char),
      (acc.map Prod.fst).Nodup →
      ¬ ((acc.map Prod.fst) ++ files.map stem).Nodup →
      ∃ n, inspectGo files acc
          = .error ("Multiple files with same stem ".toList ++ n)
        ∧ 2 ≤ ((acc.map Prod.fst) ++ files.map stem).count n := by
  induction files with
  | nil =>
    intro acc hacc h
    rw [List.map_nil, List.append_nil] at h
    exact absurd hacc h
  | cons f rest ih =>
    intro acc hacc h
    by_cases hl : (acc.lookup (stem f)).isSome
    · refine ⟨stem f, ?_, ?_⟩
      · simp [inspectGo, hl]
      · have hmem : stem f ∈ acc.map Prod.fst := by
          by_contra hnm
          rw [(lookup_eq_none_iff_keys acc (stem f)).mpr hnm] at hl
          exact absurd hl (by simp)
        have h1 : 1 ≤ (acc.map Prod.fst).count (stem f) :=
          List.one_le_count_iff.mpr hmem
        have h2 : 1 ≤ ((f :: rest).map stem).count (stem f) :=
          List.one_le_count_iff.mpr (by simp)
        rw [List.count_append]
        omega
    · have hlnone : acc.lookup (stem f) = none :=
        Option.not_isSome_iff_eq_none.mp hl
      have hnotin : stem f ∉ acc.map Prod.fst :=
        (lookup_eq_none_iff_keys acc (stem f)).mp hlnone
      have hre : (acc.map Prod.fst) ++ (f :: rest).map stem
          = ((acc ++ [(stem f, f)]).map Prod.fst) ++ rest.map stem := by
        simp
      have hacc' : ((acc ++ [(stem f, f)]).map Prod.fst).Nodup := by
        rw [List.map_append, List.nodup_append]
        refine ⟨hacc, by simp, ?_⟩
        intro x hx hx'
        simp only [List.map_cons, List.map_nil, List.mem_singleton] at hx'
        subst hx'
        exact hnotin hx
      have h' : ¬ (((acc ++ [(stem f, f)]).map Prod.fst)
          ++ rest.map stem).Nodup := by
        rw [← hre]
        exact h
      obtain ⟨n, hgo, hcount⟩ := ih (acc ++ [(stem f, f)]) hacc' h'
      refine ⟨n, ?_, ?_⟩
      · simp only [inspectGo, hlnone, Option.isSome_none, Bool.false_eq_true,
          if_false]
        exact hgo
      · rw [hre]
        exact hcount

/--
C8: with all configured files' stems distinct, `inspect` returns one
registry entry per file, keyed by stem; with a duplicate stem among the
files, `inspect` raises the fatal `Multiple files with same stem` error
naming a stem that occurs at least twice, instead of returning a mapping.
-/
theorem c8_inspect_duplicate_stems (files : List (List Char)) :
    ((files.map stem).Nodup →
        inspect_db_names files = .ok (files.map fun f => (stem f, f)))
      ∧ (¬ (files.map stem).Nodup →
        ∃ n, inspect_db_names files
            = .error ("Multiple files with same stem ".toList ++ n)
          ∧ 2 ≤ (files.map stem).count n) := by
  constructor
  · intro h
    have := inspectGo_ok files [] (by simpa using h)
    simpa [inspect_db_names] using this
  · intro h
    have := inspectGo_dup files [] (by simp) (by simpa using h)
    simpa [inspect_db_names] using this

/--
Witness for C8, both branches: distinct stems give the full registry;
`data/one.db` next to `one.db` trips the duplicate-stem error.
-/
theorem c8_inspect_duplicate_stems_witness :
    inspect_db_names ["data/one.db".toList, "two.db".toList]
        = .ok [("one".toList, "data/one.db".toList),
            ("two".toList, "two.db".toList)]
      ∧ ∃ n, inspect_db_names ["data/one.db".toList, "one.db".toList]
          = .error ("Multiple files with same stem ".toList ++ n)
        ∧ 2 ≤ (["data/one.db".toList, "one.db".toList].map stem).count n :=
  ⟨((c8_inspect_duplicate_stems
        ["data/one.db".toList, "two.db".toList]).1 (by decide)).trans (by rfl),
   (c8_inspect_duplicate_stems
        ["data/one.db".toList, "one.db".toList]).2 (by decide)⟩

/-! ### Keyset pagination: `TableView.data` (app.py 379-517) -/

/--
Pagination tail of `TableView.data` (app.py 484-493, 501, 510):

    next_value = None
    if len(rows) > self.page_size:
        if is_view:
            next_value = int(next or 0) + self.page_size
        else:
            next_value = path_from_row_pks(rows[-2], pks, use_rowid)
    ...
    'rows': rows[:self.page_size],

`rows` is the executor's result; `encode` stands for
`path_from_row_pks(·, pks, use_rowid)`; `prevNext` is the numeric `_next`
offset used in the view branch (`int(next or 0)`); Python `rows[-2]` is the
element at index `len(rows) - 2`; the integer `next_value` of the view
branch is rendered in decimal as in `str(next_value)`.
-/
def dataPageTail {α : Type} (rows : List α) (pageSize : Nat) (isView : Bool)
    (prevNext : Option Nat) (encode : α → List Char) :
    List α × Option (List Char) :=
  let nextValue : Option (List Char) :=
    if pageSize < rows.length then
      if isView then some (Nat.toDigits 10 ((prevNext.getD 0) + pageSize))
      else (rows[rows.length - 2]?).map encode
    else none
  (rows.take pageSize, nextValue)

/--
C5: the table-browse SQL always carries `limit page_size + 1` (app.py 461),
so the executor returns at most `page_size + 1` rows; when more than
`page_size` rows come back the page is exactly the first `page_size` rows
(the probe row dropped) and the next-cursor is encoded from the last
displayed row — not the probe row — for pk/rowid orderings, or is the
previous offset plus `page_size` for views; when at most `page_size` rows
come back no next-cursor is produced.
-/
theorem c5_limit_probe_cursor {α : Type} (ordered : List α) (pageSize : Nat)
    (hps : 1 ≤ pageSize) (isView : Bool) (prevNext : Option Nat)
    (encode : α → List Char) :
    (ordered.take (pageSize + 1)).length ≤ pageSize + 1
      ∧ (pageSize < (ordered.take (pageSize + 1)).length →
          (dataPageTail (ordered.take (pageSize + 1)) pageSize isView
              prevNext encode).1
            = (ordered.take (pageSize + 1)).take pageSize
          ∧ (isView = true →
              (dataPageTail (ordered.take (pageSize + 1)) pageSize isView
                  prevNext encode).2
                = some (Nat.toDigits 10 ((prevNext.getD 0) + pageSize)))
          ∧ (isView = false →
              (dataPageTail (ordered.take (pageSize + 1)) pageSize isView
                  prevNext encode).2
                = (((ordered.take (pageSize + 1)).take pageSize).getLast?).map
                    encode))
      ∧ ((ordered.take (pageSize + 1)).length ≤ pageSize →
          (dataPageTail (ordered.take (pageSize + 1)) pageSize isView
              prevNext encode).2 = none) := by
  refine ⟨by simp, ?_, ?_⟩
  · intro hgt
    have hlen : (ordered.take (pageSize + 1)).length = pageSize + 1 :=
      le_antisymm (by simp) hgt
    refine ⟨rfl, ?_, ?_⟩
    · intro hv
      simp only [dataPageTail, hgt, if_true, hv]
    · intro hv
      simp only [dataPageTail, hgt, if_true, hv, Bool.false_eq_true,
        if_false]
      have hidx : (ordered.take (pageSize + 1))[
            (ordered.take (pageSize + 1)).length - 2]?
          = ((ordered.take (pageSize + 1)).take pageSize).getLast? := by
        rw [List.getLast?_eq_getElem?]
        have htl : ((ordered.take (pageSize + 1)).take pageSize).length
            = pageSize := by
          simp [hlen]
        rw [htl,
          List.getElem?_take_of_lt (show pageSize - 1 < pageSize by omega),
          hlen]
        congr 1
      rw [hidx]
  · intro hle
    simp only [dataPageTail, Nat.not_lt.mpr hle, if_false]

/--
Witness for C5 at a 3-row fetch with page size 2, pk ordering: the cursor
comes from the last displayed row.
-/
theorem c5_limit_probe_cursor_witness :
    (dataPageTail ([5, 6, 7].take 3) 2 false none
        (fun n => Nat.toDigits 10 n)).2
      = ((([5, 6, 7].take 3).take 2).getLast?).map
          (fun n => Nat.toDigits 10 n) :=
  (((c5_limit_probe_cursor [5, 6, 7] 2 (by decide) false none
      (fun n => Nat.toDigits 10 n)).2.1 (by decide)).2.2) rfl

/-! ### Compound-primary-key browse (claim C1) -/

/--
Python `s.split(sep)` for a single-character separator: `"".split(',')`
is `['']` and separators delimit possibly empty fields.
-/
def splitOnChar (sep : Char) : List Char → List (List Char)
  | [] => [[]]
  | c :: rest =>
    let r := splitOnChar sep rest
    if c = sep then [] :: r
    else
      match r with
      | h :: t => (c :: h) :: t
      | [] => [[c]]

/--
Modelled from the spec: `compound_pks_from_path` lives in
`datasette/utils.py`, which is not under `src/`; per spec §3 Cursor the
compound-key cursor is the key components, percent-escaped and
comma-joined in declared key order, so decoding splits the token on `,`
(integer components contain no characters needing percent-escaping).
-/
def compound_pks_from_path (path : List Char) : List (List Char) :=
  splitOnChar ',' path

/--
Decimal rendering of an integer, as Python `str(value)` for `int`.
-/
def intToChars (i : Int) : List Char :=
  if i < 0 then '-' :: Nat.toDigits 10 i.natAbs else Nat.toDigits 10 i.toNat

/--
Modelled from the spec: `path_from_row_pks` lives in `datasette/utils.py`,
which is not under `src/`; per spec §3 Cursor it encodes the primary-key
tuple of a row, comma-joined in declared key order (here a two-column
integer key `(a, b)`, needing no percent-escaping).
-/
def path_from_row_pks (row : Int × Int) : List Char :=
  intToChars row.1 ++ ',' :: intToChars row.2

/--
SQLite integer-affinity conversion of a bound text parameter to the
integer it spells, for well-formed decimal strings (the comparison
`"a" > :p0` against an integer column converts the text operand first).
-/
def parseIntChars (s : List Char) : Int :=
  match s with
  | '-' :: rest =>
    -((rest.foldl (fun acc c => acc * 10 + (c.toNat - '0'.toNat)) 0 : Nat) : Int)
  | _ =>
    ((s.foldl (fun acc c => acc * 10 + (c.toNat - '0'.toNat)) 0 : Nat) : Int)

/--
Row order `order by "a", "b"` for a two-integer-column primary key:
lexicographic comparison, first column then second.
-/
def pkLe (r s : Int × Int) : Bool :=
  decide (r.1 < s.1) || (decide (r.1 = s.1) && decide (r.2 ≤ s.2))

/--
Insertion step of the `order by` sort on compound-pk rows.
-/
def insertPkRow (x : Int × Int) : List (Int × Int) → List (Int × Int)
  | [] => [x]
  | y :: ys => if pkLe x y then x :: y :: ys else y :: insertPkRow x ys

/--
Stable insertion sort realising `order by "a", "b"` on the row multiset.
-/
def sortByPk (rows : List (Int × Int)) : List (Int × Int) :=
  rows.foldr insertPkRow []

/--
`TableView.data` for a table with compound primary key `(a, b)` of two
integer columns, no filter arguments, browsing with an optional `_next`
cursor (app.py 436-447, 456-471, 484-501):

- the cursor is decoded with `compound_pks_from_path`; when its arity
  matches the key's, the where clauses `"a" > :p0` and `"b" > :p1` are
  appended — a CONJUNCTION of component-wise comparisons (app.py 440-447);
- the statement selects the filtered rows in `order by "a", "b"` with
  `limit page_size + 1`;
- the executor truncation (`execute`, truncate=True) and the pagination
  tail then produce the page and next cursor.
-/
def tableBrowseCompoundPk (rows : List (Int × Int))
    (pageSize maxReturnedRows : Nat) (next : Option (List Char)) :
    List (Int × Int) × Option (List Char) :=
  let filtered :=
    match next with
    | some nx =>
      match compound_pks_from_path nx with
      | [va, vb] =>
        rows.filter (fun r =>
          decide (parseIntChars va < r.1) && decide (parseIntChars vb < r.2))
      | _ => rows
    | none => rows
  let sqlRows := (sortByPk filtered).take (pageSize + 1)
  let fetched := (execute_fetch sqlRows maxReturnedRows true).1
  dataPageTail fetched pageSize false none path_from_row_pks

/--
C1 (code bug): on the table `{(1,1), (1,2), (2,1)}` with page size 2, page
1 is `[(1,1), (1,2)]` with next-cursor `"1,2"` as the claim states, but
requesting page 2 with that cursor returns NO rows: the generated where
clause `a > 1 AND b > 2` (component-wise conjunction instead of a
lexicographic keyset predicate) excludes `(2,1)`, so the row is skipped and
pagination loses it.
-/
theorem c1_compound_pk_pagination :
    tableBrowseCompoundPk [(1, 1), (1, 2), (2, 1)] 2 1000 none
        = ([(1, 1), (1, 2)], some "1,2".toList)
      ∧ tableBrowseCompoundPk [(1, 1), (1, 2), (2, 1)] 2 1000
          (some "1,2".toList)
        = ([], none)
      ∧ (2, 1) ∉ (tableBrowseCompoundPk [(1, 1), (1, 2), (2, 1)] 2 1000
          (some "1,2".toList)).1 := by
  refine ⟨by decide, by decide, by decide⟩

end Datasette
